import Mathlib

/-!
Verification of the crammer repository's core logic: the filename metadata
parser (src/lib/metadata), the chronological sequencer and process handler
(src/app/api/process/route.ts), the transcription handler
(src/app/api/transcribe/route.ts) and the in-memory store (src/lib/store).

Conventions of the shallow embedding:
- JavaScript strings are modelled through their character lists (ASCII, which
  covers every character class the source's regular expressions use).
- JavaScript Date values are modelled by integers: a calendar date is the
  number of days since 1970-01-01 (proleptic Gregorian), a timestamp is
  milliseconds.  The constructor new Date(y, m, d) never yields an invalid
  date for the digit ranges produced by the parser (it normalises
  out-of-range month/day by rollover), which is modelled by jsMakeDay; the
  local-timezone offset is taken to be zero (UTC).
- The V8 string date parser used for month-name patterns accepts a day
  component between 1 and 31 and then normalises by the same rollover
  (e.g. "February 30 2015" parses and rolls over); other day values give an
  invalid date.
- Regular-expression matching is compiled pattern by pattern: the source's
  patterns only combine disjoint character classes, so greedy matching with
  leftmost search is equivalent to the backtracking semantics, except for the
  one- or two-digit day group, whose backtracking is reproduced exactly.
-/

namespace Crammer

/-! ## Character classes of the source's regular expressions -/

/-- Date separator class of the pattern (\d{4})[_\-.](\d{2})[_\-.](\d{2}). -/
def isSepCh (c : Char) : Bool := c = '_' || c = '-' || c = '.'

/-- Whitespace class \s (ASCII part). -/
def isSpaceCh (c : Char) : Bool := c = ' ' || c = '\t' || c = '\n' || c = '\r'

/-- Class [_\-\s] used by the sequence patterns. -/
def isSeqSep (c : Char) : Bool := c = '_' || c = '-' || isSpaceCh c

/-- Class [,\s] used by the month-name patterns. -/
def isCommaSpace (c : Char) : Bool := c = ',' || isSpaceCh c

/-- JavaScript word-character class \w = [A-Za-z0-9_], used by \b. -/
def isWordCh (c : Char) : Bool := c.isAlpha || c.isDigit || c = '_'

/-- ASCII lower-casing, modelling String.prototype.toLowerCase on ASCII. -/
def toLowerAscii (c : Char) : Char :=
  if 'A' ≤ c && c ≤ 'Z' then Char.ofNat (c.toNat + 32) else c

/-- Value of a digit string, modelling parseInt(s, 10) on digit-only input. -/
def digitsToNat (l : List Char) : Nat :=
  l.foldl (fun n c => 10 * n + (c.toNat - 48)) 0

/-! ## path.basename(filename, path.extname(filename)) -/

/-- Characters after the last '/' (POSIX path.basename step). -/
def afterLastSlash (l : List Char) : List Char :=
  l.foldl (fun acc c => if c = '/' then [] else acc ++ [c]) []

/-- Index of the last '.' in the name, if any (path.extname step). -/
def lastDotIdx (l : List Char) : Option Nat :=
  match l.reverse.findIdx? (· = '.') with
  | some j => some (l.length - 1 - j)
  | none => none

/-- Strip directory and extension: path.basename(f, path.extname(f)).
path.extname is empty when the only dot is the leading character, in which
case nothing is stripped. -/
def basenameNoExt (filename : String) : List Char :=
  let b := afterLastSlash filename.toList
  match lastDotIdx b with
  | some i => if 0 < i then b.take i else b
  | none => b

/-! ## JavaScript Date arithmetic -/

/-- Days since 1970-01-01 of the civil date (y, m, d); m must lie in 1..12,
d enters linearly so that out-of-range days roll over exactly as the
ECMAScript MakeDay operation does. -/
def daysFromCivil (y m d : Int) : Int :=
  let y1 := if m ≤ 2 then y - 1 else y
  let era := y1.fdiv 400
  let yoe := y1 - era * 400
  let mp := (m + 9).emod 12
  let doy := (153 * mp + 2).fdiv 5 + d - 1
  let doe := yoe * 365 + yoe.fdiv 4 - yoe.fdiv 100 + doy
  era * 146097 + doe - 719468

/-- Day number of new Date(y, monthIdx, d) (ECMAScript MakeDay): the
zero-based month index is normalised into the year by floor division and the
day offset rolls over across month and year boundaries. -/
def jsMakeDay (y monthIdx d : Int) : Int :=
  let y2 := y + monthIdx.fdiv 12
  let m2 := monthIdx.emod 12
  daysFromCivil y2 (m2 + 1) d

/-! ## parseDateFromFilename -/

/-- Leftmost-match scan of a pattern matcher over every suffix position. -/
def scanFirst (f : List Char → Option β) : List Char → Option β
  | [] => f []
  | l@(_ :: t) =>
    match f l with
    | some r => some r
    | none => scanFirst f t

/-- Structural match of (\d{4})[_\-.](\d{2})[_\-.](\d{2}) at the current
position, yielding (year, month, day). -/
def sepAt : List Char → Option (Nat × Nat × Nat)
  | y1 :: y2 :: y3 :: y4 :: s1 :: m1 :: m2 :: s2 :: d1 :: d2 :: _ =>
    if y1.isDigit && y2.isDigit && y3.isDigit && y4.isDigit && isSepCh s1 &&
        m1.isDigit && m2.isDigit && isSepCh s2 && d1.isDigit && d2.isDigit then
      some (digitsToNat [y1, y2, y3, y4], digitsToNat [m1, m2], digitsToNat [d1, d2])
    else none
  | _ => none

/-- First match of the separated numeric pattern in the name. -/
def sepSearch (l : List Char) : Option (Nat × Nat × Nat) := scanFirst sepAt l

/-- Match of (\d{4})(\d{2})(\d{2})(?!\d) at the current position: eight
digits not followed by a ninth. -/
def compactAt : List Char → Option (Nat × Nat × Nat)
  | a :: b :: c :: d :: e :: f :: g :: h :: rest =>
    if (a.isDigit && b.isDigit && c.isDigit && d.isDigit &&
        e.isDigit && f.isDigit && g.isDigit && h.isDigit) &&
        !(match rest with | r :: _ => r.isDigit | [] => false) then
      some (digitsToNat [a, b, c, d], digitsToNat [e, f], digitsToNat [g, h])
    else none
  | _ => none

/-- First match of (?<!\d)(\d{4})(\d{2})(\d{2})(?!\d): the Boolean carries
whether the previous character is a digit (the lookbehind). -/
def compactSearch : Bool → List Char → Option (Nat × Nat × Nat)
  | _, [] => none
  | prevD, l@(c :: t) =>
    match (if prevD then none else compactAt l) with
    | some r => some r
    | none => compactSearch c.isDigit t

/-- Three-letter month abbreviations, in the source's loop order. -/
def monthAbbrevs : List (List Char) :=
  [['j','a','n'], ['f','e','b'], ['m','a','r'], ['a','p','r'],
   ['m','a','y'], ['j','u','n'], ['j','u','l'], ['a','u','g'],
   ['s','e','p'], ['o','c','t'], ['n','o','v'], ['d','e','c']]

/-- Consume an exact literal, returning the remainder. -/
def dropLit : List Char → List Char → Option (List Char)
  | [], l => some l
  | _ :: _, [] => none
  | c :: cs, x :: xs => if x = c then dropLit cs xs else none

/-- Four digits (\d{4}) at the current position, as a year. -/
def firstFour : List Char → Option Nat
  | a :: b :: c :: d :: _ =>
    if a.isDigit && b.isDigit && c.isDigit && d.isDigit then
      some (digitsToNat [a, b, c, d])
    else none
  | _ => none

/-- Tail [,\s]+(\d{4}) of both month-name patterns. -/
def sepYear (r : List Char) : Option Nat :=
  let (seps, r2) := r.span isCommaSpace
  if seps.isEmpty then none else firstFour r2

/-- Match of (mon)[a-z]*\s*(\d{1,2})[,\s]+(\d{4}) at the current position,
yielding (day, year).  The day group is the maximal digit run, which the
regular expression accepts only when it has length one or two (backtracking
a longer run always fails because the following class excludes digits). -/
def shortAt (mon : List Char) (l : List Char) : Option (Nat × Nat) :=
  match dropLit mon l with
  | none => none
  | some r1 =>
    let r2 := r1.dropWhile Char.isLower
    let r3 := r2.dropWhile isSpaceCh
    let (ds, r4) := r3.span Char.isDigit
    if ds.isEmpty || 3 ≤ ds.length then none
    else
      match sepYear r4 with
      | some yr => some (digitsToNat ds, yr)
      | none => none

/-- Tail (mon)[a-z]*[,\s]+(\d{4}) of the reversed month pattern. -/
def monthYearTail (mon : List Char) (r : List Char) : Option Nat :=
  match dropLit mon r with
  | none => none
  | some r1 => sepYear (r1.dropWhile Char.isLower)

/-- Match of (\d{1,2})\s+(mon)[a-z]*[,\s]+(\d{4}) at the current position,
yielding (day, year). -/
def revAt (mon : List Char) (l : List Char) : Option (Nat × Nat) :=
  match l with
  | [] => none
  | a :: rest =>
    if a.isDigit then
      match rest with
      | [] => none
      | b :: rest2 =>
        if b.isDigit then
          let (sp, r3) := rest2.span isSpaceCh
          if sp.isEmpty then none
          else
            match monthYearTail mon r3 with
            | some yr => some (digitsToNat [a, b], yr)
            | none => none
        else
          let (sp, r3) := rest.span isSpaceCh
          if sp.isEmpty then none
          else
            match monthYearTail mon r3 with
            | some yr => some (digitsToNat [a], yr)
            | none => none
    else none

/-- Value of new Date("monthFull day year") under the V8 string parser: the
day component must lie in 1..31 (otherwise the date is invalid and the
source's isNaN check rejects it), and the result rolls over out-of-range
day-in-month combinations via MakeDay. -/
def monthDate (i dy yr : Nat) : Option Int :=
  if 1 ≤ dy && dy ≤ 31 then some (jsMakeDay (yr : Int) (i : Int) (dy : Int)) else none

/-- One iteration of the source's month loop: try the short pattern, and on
no match or an invalid date fall through to the reversed pattern. -/
def monthTry (b : List Char) (i : Nat) : Option Int :=
  let mon := monthAbbrevs.getD i []
  let revStep :=
    match scanFirst (revAt mon) b with
    | some (dy, yr) => monthDate i dy yr
    | none => none
  match scanFirst (shortAt mon) b with
  | some (dy, yr) =>
    match monthDate i dy yr with
    | some d => some d
    | none => revStep
  | none => revStep

/-- Month-name patterns, months tried in calendar order as in the source. -/
def monthSearch (b : List Char) : Option Int :=
  (List.range 12).findSome? (monthTry b)

/-- parseDateFromFilename (src/lib/metadata.ts): try the separated numeric
pattern, then the compact eight-digit pattern, then the month-name patterns,
returning a day number.  For the separated pattern the source only checks
isNaN (never true for four-digit years) and year > 2000, so out-of-range
month or day values roll over via new Date(y, m-1, d) instead of being
rejected; the compact pattern checks its ranges explicitly and falls through
on violation. -/
def parseDateFromFilename (filename : String) : Option Int :=
  let base := basenameNoExt filename
  let lower := base.map toLowerAscii
  let monthStep := monthSearch lower
  let compactStep :=
    match compactSearch false base with
    | some (y, m, d) =>
      if 2000 < y && 1 ≤ m && m ≤ 12 && 1 ≤ d && d ≤ 31 then
        some (jsMakeDay (y : Int) ((m : Int) - 1) (d : Int))
      else monthStep
    | none => monthStep
  match sepSearch base with
  | some (y, m, d) =>
    if 2000 < y then some (jsMakeDay (y : Int) ((m : Int) - 1) (d : Int))
    else compactStep
  | none => compactStep

/-! ## parseSequenceFromFilename -/

/-- Match of part[_\-\s]*(\d+)\b at the current position of the lowered
name (the leading \b is handled by the scanner). -/
def partAt : List Char → Option Nat
  | 'p' :: 'a' :: 'r' :: 't' :: rest =>
    let r2 := rest.dropWhile isSeqSep
    let (ds, r3) := r2.span Char.isDigit
    if ds.isEmpty then none
    else
      match r3 with
      | c :: _ => if isWordCh c then none else some (digitsToNat ds)
      | [] => some (digitsToNat ds)
  | _ => none

/-- Scan for \bpart[_\-\s]*(\d+)\b: the Boolean records whether a word
boundary holds before the current position (start of string, or the
previous character is not a word character). -/
def partSearch : Bool → List Char → Option Nat
  | _, [] => none
  | bOk, l@(c :: t) =>
    match (if bOk then partAt l else none) with
    | some r => some r
    | none => partSearch (!(isWordCh c)) t

/-- parseSequenceFromFilename (src/lib/metadata.ts): leading number with
separator, then the part token, then trailing number with separator, then a
bare all-digit name. -/
def parseSequenceFromFilename (filename : String) : Option Nat :=
  let base := basenameNoExt filename
  let lower := base.map toLowerAscii
  -- ^(\d+)[_\-\s]
  let (ld, lrest) := base.span Char.isDigit
  if !ld.isEmpty && (match lrest with | c :: _ => isSeqSep c | [] => false) then
    some (digitsToNat ld)
  else
    match partSearch true lower with
    | some n => some n
    | none =>
      -- [_\-\s](\d+)$
      let (td, trest) := base.reverse.span Char.isDigit
      if !td.isEmpty && (match trest with | c :: _ => isSeqSep c | [] => false) then
        some (digitsToNat td.reverse)
      else if !base.isEmpty && base.all Char.isDigit then
        some (digitsToNat base)
      else none

/-! ## getRecordedAt -/

/-- getRecordedAt (src/lib/metadata.ts).  The file system is modelled as an
association of paths to mtime timestamps (milliseconds); fs.statSync throws
on a missing path, modelled by the error result.  A parsed date is a local
midnight, whose time value is its day number times 86400000. -/
def getRecordedAt (mtimes : List (String × Int)) (filePath originalName : String) :
    Except String Int :=
  match parseDateFromFilename originalName with
  | some days => .ok (days * 86400000)
  | none =>
    match List.lookup filePath mtimes with
    | some m => .ok m
    | none => .error "ENOENT: no such file or directory, stat"

/-! ## Array.prototype.sort

The source sorts with comparators that are not transitive (the sequencer's
closeness tie-break), so the result is pinned to what V8 actually executes.
V8's TimSort computes a minimal run length equal to the array length for
arrays shorter than 64 elements, so the whole sort is: detect the initial
ascending (or strictly descending, then reversed) run, then insert every
remaining element into the run by binary insertion.  That single-run path is
modelled here; for longer arrays TimSort additionally merges runs, but an
array whose adjacent pairs are already ascending is covered by its initial
run and left unchanged at every length. -/

section JsSort

variable {α : Type} (cmp : α → α → Int)

/-- Maximal run with cmp next prev ≥ 0 (countRunAndMakeAscending, ascending
case), returning the run and the remainder. -/
def ascRun : α → List α → List α × List α
  | _, [] => ([], [])
  | prev, x :: xs =>
    if 0 ≤ cmp x prev then
      let (r, rest) := ascRun x xs
      (x :: r, rest)
    else ([], x :: xs)

/-- Maximal run with cmp next prev < 0 (countRunAndMakeAscending, strictly
descending case). -/
def descRun : α → List α → List α × List α
  | _, [] => ([], [])
  | prev, x :: xs =>
    if cmp x prev < 0 then
      let (r, rest) := descRun x xs
      (x :: r, rest)
    else ([], x :: xs)

/-- Binary search of V8's BinaryInsertionSort, with explicit fuel (the fuel
never runs out when it starts at right - left): position for the pivot
within indices left..right of l. -/
def binPosF (x : α) (l : List α) : Nat → Nat → Nat → Nat
  | 0, left, _ => left
  | fuel + 1, left, right =>
    if left < right then
      let mid := left + (right - left) / 2
      if cmp x (l.getD mid x) < 0 then binPosF x l fuel left mid
      else binPosF x l fuel (mid + 1) right
    else left

/-- Insertion position of the pivot x in the sorted list l. -/
def binPos (x : α) (l : List α) : Nat := binPosF cmp x l l.length 0 l.length

/-- Insertion of x at position p. -/
def insertAt (x : α) : Nat → List α → List α
  | 0, l => x :: l
  | _ + 1, [] => [x]
  | p + 1, y :: ys => y :: insertAt x p ys

/-- One step of BinaryInsertionSort. -/
def binIns (l : List α) (x : α) : List α := insertAt x (binPos cmp x l) l

/-- Array.prototype.sort(cmp) as V8 executes it on a single-run array. -/
def jsSort : List α → List α
  | [] => []
  | [a] => [a]
  | a :: b :: rest =>
    if cmp b a < 0 then
      let (r, rs) := descRun cmp b rest
      rs.foldl (binIns cmp) (a :: b :: r).reverse
    else
      let (r, rs) := ascRun cmp b rest
      rs.foldl (binIns cmp) (a :: b :: r)

/-- Adjacent pairs are ascending: no element compares before its
predecessor. -/
def Asc (l : List α) : Prop := List.Chain' (fun u v => 0 ≤ cmp v u) l

end JsSort

/-! ## Data model (src/types/index.ts)

ISO date strings are modelled by their epoch-millisecond values (the source
only ever consumes them through new Date(s).getTime() or stores them
verbatim); floating-point confidence/duration/offset fields are modelled as
integers — no verified claim inspects them. -/

inductive FileStatus
  | uploaded
  | transcribing
  | transcribed
  | error
deriving DecidableEq, Repr

inductive Phase
  | idle
  | uploading
  | transcribing
  | processing
  | complete
  | error
deriving DecidableEq, Repr

structure AudioFile where
  id : String
  originalName : String
  savedPath : String
  mimeType : String
  size : Nat
  recordedAt : Int
  uploadedAt : Int
  status : FileStatus
  errorMessage : Option String := none
deriving DecidableEq, Repr

structure TranscriptionWord where
  word : String
  startTime : Int
  endTime : Int
  confidence : Int
  speaker : Option Nat := none
deriving DecidableEq, Repr

structure Transcription where
  audioFileId : String
  text : String
  words : List TranscriptionWord
  confidence : Int
  duration : Int
  paragraphs : Option (List String) := none
deriving DecidableEq, Repr

structure Lecture where
  id : String
  lectureNumber : Int
  title : String
  summary : String
  keyTopics : List String
  audioFileIds : List String
  fullTranscript : String
  createdAt : Int
deriving DecidableEq, Repr

inductive PodcastFormat
  | qa
  | narrative
  | discussion
deriving DecidableEq, Repr

structure PodcastScript where
  id : String
  lectureId : String
  format : PodcastFormat
  title : String
  description : String
  script : String
  generatedAt : Int
deriving DecidableEq, Repr

structure ProcessingStatus where
  totalFiles : Nat
  transcribedFiles : Nat
  lecturesGenerated : Nat
  phase : Phase
  errorMessage : Option String := none
deriving DecidableEq, Repr

/-! ## Store (src/lib/store.ts)

Maps are modelled as association lists with JavaScript Map semantics:
setting an existing key replaces the value in place (insertion order kept),
a new key is appended; values() iterates in insertion order. -/

/-- Map.prototype.set. -/
def mapSet (m : List (String × β)) (k : String) (v : β) : List (String × β) :=
  if m.any (fun p => p.1 == k) then
    m.map (fun p => if p.1 == k then (k, v) else p)
  else m ++ [(k, v)]

/-- Map.prototype.get. -/
def mapGet (m : List (String × β)) (k : String) : Option β := List.lookup k m

structure Store where
  audioFiles : List (String × AudioFile)
  transcriptions : List (String × Transcription)
  lectures : List (String × Lecture)
  podcastScripts : List (String × PodcastScript)
  status : ProcessingStatus
deriving DecidableEq, Repr

/-- Partial AudioFile: the Partial of the update operation; a field holds
some v when the update names it. -/
structure AudioFileUpdates where
  id : Option String := none
  originalName : Option String := none
  savedPath : Option String := none
  mimeType : Option String := none
  size : Option Nat := none
  recordedAt : Option Int := none
  uploadedAt : Option Int := none
  status : Option FileStatus := none
  errorMessage : Option (Option String) := none
deriving DecidableEq, Repr

/-- Spread merge of updates over an existing record. -/
def mergeAudioFile (f : AudioFile) (u : AudioFileUpdates) : AudioFile where
  id := u.id.getD f.id
  originalName := u.originalName.getD f.originalName
  savedPath := u.savedPath.getD f.savedPath
  mimeType := u.mimeType.getD f.mimeType
  size := u.size.getD f.size
  recordedAt := u.recordedAt.getD f.recordedAt
  uploadedAt := u.uploadedAt.getD f.uploadedAt
  status := u.status.getD f.status
  errorMessage := u.errorMessage.getD f.errorMessage

structure StatusUpdates where
  totalFiles : Option Nat := none
  transcribedFiles : Option Nat := none
  lecturesGenerated : Option Nat := none
  phase : Option Phase := none
  errorMessage : Option (Option String) := none
deriving DecidableEq, Repr

def mergeStatus (s : ProcessingStatus) (u : StatusUpdates) : ProcessingStatus where
  totalFiles := u.totalFiles.getD s.totalFiles
  transcribedFiles := u.transcribedFiles.getD s.transcribedFiles
  lecturesGenerated := u.lecturesGenerated.getD s.lecturesGenerated
  phase := u.phase.getD s.phase
  errorMessage := u.errorMessage.getD s.errorMessage

def addAudioFile (s : Store) (f : AudioFile) : Store :=
  { s with audioFiles := mapSet s.audioFiles f.id f }

def getAllAudioFiles (s : Store) : List AudioFile := s.audioFiles.map Prod.snd

/-- store.updateAudioFile: shallow-merge the updates over the existing
record; a missing id leaves the store untouched. -/
def updateAudioFile (s : Store) (id : String) (u : AudioFileUpdates) : Store :=
  match mapGet s.audioFiles id with
  | some f => { s with audioFiles := mapSet s.audioFiles id (mergeAudioFile f u) }
  | none => s

def addTranscription (s : Store) (t : Transcription) : Store :=
  { s with transcriptions := mapSet s.transcriptions t.audioFileId t }

def getTranscription (s : Store) (id : String) : Option Transcription :=
  mapGet s.transcriptions id

def addLecture (s : Store) (lec : Lecture) : Store :=
  { s with lectures := mapSet s.lectures lec.id lec }

def clearLectures (s : Store) : Store := { s with lectures := [] }

def updateStatus (s : Store) (u : StatusUpdates) : Store :=
  { s with status := mergeStatus s.status u }

/-- store.getAllLectures: values sorted by lectureNumber ascending. -/
def compareLectures (a b : Lecture) : Int := a.lectureNumber - b.lectureNumber

def getAllLectures (s : Store) : List Lecture :=
  jsSort compareLectures (s.lectures.map Prod.snd)

/-! ## Chronological sequencer (src/app/api/process/route.ts) -/

def CLOSE_THRESHOLD_MS : Int := 5 * 60 * 1000

/-- Sort comparator of the process handler: ascending recording timestamp,
overridden by filename sequence numbers when both exist and the timestamps
lie within the closeness threshold. -/
def compareAudioFiles (a b : AudioFile) : Int :=
  let timeDiff := a.recordedAt - b.recordedAt
  if |timeDiff| < CLOSE_THRESHOLD_MS then
    match parseSequenceFromFilename a.originalName,
        parseSequenceFromFilename b.originalName with
    | some sa, some sb => (sa : Int) - (sb : Int)
    | _, _ => timeDiff
  else timeDiff

/-! ## Transcription handler (src/app/api/transcribe/route.ts)

The external transcription service is a parameter res mapping a file id to
the call's outcome.  Each handler returns, next to the final store, the list
of intermediate store states after each mutation, in order. -/

def toTranscribeOf (s : Store) (fileIds : Option (List String)) : List AudioFile :=
  let allFiles := getAllAudioFiles s
  match fileIds with
  | some ids => allFiles.filter (fun f => ids.contains f.id)
  | none => allFiles.filter (fun f => decide (f.status = FileStatus.uploaded))

def countTranscribed (s : Store) : Nat :=
  ((getAllAudioFiles s).filter
    (fun f => decide (f.status = FileStatus.transcribed))).length

/-- Body of the per-file loop: mark transcribing, call the service, record
the transcription or the error, recompute the transcribed count. -/
def transcribeStep (res : String → Except String Transcription) (s : Store)
    (f : AudioFile) : Store × List Store :=
  let a := updateAudioFile s f.id { status := some .transcribing }
  match res f.id with
  | .ok t =>
    let b := addTranscription a t
    let c := updateAudioFile b f.id { status := some .transcribed }
    let d := updateStatus c { transcribedFiles := some (countTranscribed c) }
    (d, [a, b, c, d])
  | .error msg =>
    let c := updateAudioFile a f.id
      { status := some .error, errorMessage := some (some msg) }
    let d := updateStatus c { transcribedFiles := some (countTranscribed c) }
    (d, [a, c, d])

def runBatch (res : String → Except String Transcription) :
    Store → List AudioFile → Store × List Store
  | s, [] => (s, [])
  | s, f :: rest =>
    ((runBatch res (transcribeStep res s f).1 rest).1,
      (transcribeStep res s f).2 ++ (runBatch res (transcribeStep res s f).1 rest).2)

def allFilesDone (s : Store) : Bool :=
  (getAllAudioFiles s).all (fun f =>
    decide (f.status = FileStatus.transcribed) || decide (f.status = FileStatus.error))

/-- POST /api/transcribe. -/
def transcribePOST (s0 : Store) (fileIds : Option (List String))
    (res : String → Except String Transcription) : Store × List Store :=
  let toT := toTranscribeOf s0 fileIds
  if toT.isEmpty then (s0, [])
  else
    let s1 := updateStatus s0 { phase := some .transcribing }
    let s2 := (runBatch res s1 toT).1
    let tr := (runBatch res s1 toT).2
    let s3 := if allFilesDone s2 then updateStatus s2 { phase := some .processing } else s2
    (s3, s1 :: (tr ++ [s3]))

/-! ## Process handler (src/app/api/process/route.ts)

The external grouping service is a parameter response (what the awaited
inferLectures call delivers to the handler); uuidAt numbers the fresh
lecture ids, nowMs models new Date() and fmtDate models
toLocaleDateString. -/

structure LectureGroup where
  lectureNumber : Int
  title : String
  summary : String
  keyTopics : List String
  audioFileIds : List String
deriving DecidableEq, Repr

/-- One element of parsed.lectures.  inferLectures performs no structural
validation beyond JSON.parse, so an element need not have the LectureGroup
shape. -/
inductive GroupItem
  /-- Structurally well-formed group. -/
  | good (g : LectureGroup)
  /-- Malformed item, for example one without an audioFileIds array:
  building its lecture throws a TypeError at group.audioFileIds.map, after
  clearLectures and after the addLecture calls of the preceding groups;
  msg is the thrown message. -/
  | bad (msg : String)
deriving DecidableEq, Repr

/-- Outcome of the inferLectures call as the process handler observes it. -/
inductive GroupsResponse
  /-- The awaited call itself threw (API error, non-text content, a
  response that is not valid JSON, or a null JSON root): no store mutation
  has happened beyond the phase update when the catch runs. -/
  | thrown (msg : String)
  /-- JSON parsed but parsed.lectures is not an iterable array (for
  example an empty JSON object response leaves it undefined): the for..of
  over it throws a TypeError, after clearLectures has run. -/
  | notIterable (msg : String)
  /-- parsed.lectures is an array of items, each well-formed or not. -/
  | groups (gs : List GroupItem)
deriving DecidableEq, Repr

inductive ProcessOutcome
  | ok (lectureCount : Nat)
  | badRequest
  | serverError (msg : String)
deriving DecidableEq, Repr

def buildLecture (s : Store) (sorted : List AudioFile) (fmtDate : Int → String)
    (newId : String) (nowMs : Int) (g : LectureGroup) : Lecture :=
  let groupFiles :=
    (g.audioFileIds.map (fun id => sorted.find? (fun f => f.id == id))).reduceOption
  let fullTranscript := String.intercalate "\n\n---\n\n" (groupFiles.map (fun f =>
    "[" ++ f.originalName ++ " — " ++ fmtDate f.recordedAt ++ "]\n" ++
      (((getTranscription s f.id).map (fun t => t.text)).getD "")))
  let dates := groupFiles.map (fun f => f.recordedAt)
  let earliest := match dates with
    | [] => nowMs
    | d :: ds => ds.foldl min d
  { id := newId, lectureNumber := g.lectureNumber, title := g.title,
    summary := g.summary, keyTopics := g.keyTopics,
    audioFileIds := g.audioFileIds, fullTranscript := fullTranscript,
    createdAt := earliest }

/-- Result of the handler's rebuild loop over parsed.lectures. -/
inductive BuildResult
  | finished (s : Store) (count : Nat)
  | threw (s : Store) (msg : String)
deriving DecidableEq, Repr

/-- Rebuild loop of the process handler: well-formed groups are built and
added one by one; a malformed item throws mid-loop, leaving the lectures
added so far persisted in the store. -/
def addLectures (sorted : List AudioFile) (fmtDate : Int → String)
    (uuidAt : Nat → String) (nowMs : Int) :
    Store → Nat → List GroupItem → BuildResult
  | s, i, [] => .finished s i
  | s, i, .good g :: gs =>
    addLectures sorted fmtDate uuidAt nowMs
      (addLecture s (buildLecture s sorted fmtDate (uuidAt i) nowMs g)) (i + 1) gs
  | s, _, .bad msg :: _ => .threw s msg

/-- POST /api/process.  The try/catch wraps the whole body, so a throw at
any point after clearLectures leaves the partially rebuilt lecture set in
the store when the catch sets the error phase. -/
def processPOST (s0 : Store) (uuidAt : Nat → String) (nowMs : Int)
    (fmtDate : Int → String) (response : GroupsResponse) :
    Store × ProcessOutcome :=
  let sA := updateStatus s0 { phase := some .processing }
  let transcribedFiles := (getAllAudioFiles sA).filter
    (fun f => decide (f.status = FileStatus.transcribed))
  if transcribedFiles.isEmpty then (sA, .badRequest)
  else
    let sorted := jsSort compareAudioFiles transcribedFiles
    match response with
    | .thrown msg =>
      (updateStatus sA { phase := some .error, errorMessage := some (some msg) },
        .serverError msg)
    | .notIterable msg =>
      let sB := clearLectures sA
      (updateStatus sB { phase := some .error, errorMessage := some (some msg) },
        .serverError msg)
    | .groups gs =>
      let sB := clearLectures sA
      match addLectures sorted fmtDate uuidAt nowMs sB 0 gs with
      | .finished sC count =>
        (updateStatus sC
          { lecturesGenerated := some count, phase := some .complete },
          .ok count)
      | .threw sC msg =>
        (updateStatus sC { phase := some .error, errorMessage := some (some msg) },
          .serverError msg)

/-! ## Status-order vocabulary for the lifecycle claims -/

/-- Forward order of the recording lifecycle
uploaded -> transcribing -> (transcribed | error). -/
def statusLe : FileStatus → FileStatus → Bool
  | .uploaded, _ => true
  | .transcribing, .uploaded => false
  | .transcribing, _ => true
  | .transcribed, .transcribed => true
  | .transcribed, _ => false
  | .error, .error => true
  | .error, _ => false

def audioStatus (s : Store) (id : String) : Option FileStatus :=
  (mapGet s.audioFiles id).map (fun f => f.status)

/-- One observation of a recording's status moved forward (or stayed, or
the recording is absent on both sides). -/
def statusStepOk : Option FileStatus → Option FileStatus → Prop
  | some a, some b => statusLe a b = true
  | none, none => True
  | _, _ => False

/-- Between two store states, every recording's status moved forward (and
no recording appeared or disappeared). -/
def statusMono (s s2 : Store) : Prop :=
  ∀ id, statusStepOk (audioStatus s id) (audioStatus s2 id)

/-- Every consecutive pair along a trace satisfies R. -/
def traceOk (R : Store → Store → Prop) : Store → List Store → Prop
  | _, [] => True
  | s, s2 :: tr => R s s2 ∧ traceOk R s2 tr

/-- Store sanity delivered by the upload flow: audio-file keys are distinct
and each entry is keyed by its record's id. -/
def WFStore (s : Store) : Prop :=
  (s.audioFiles.map Prod.fst).Nodup ∧ ∀ p ∈ s.audioFiles, p.2.id = p.1

/-! ## Concrete pipeline inputs used by witnesses and counterexamples -/

def sampleTranscription (id : String) : Transcription :=
  { audioFileId := id, text := "sample text", words := [], confidence := 0,
    duration := 0 }

def sampleAudioFile (id name : String) (t : Int) (st : FileStatus) : AudioFile :=
  { id := id, originalName := name,
    savedPath := "/tmp/crammer-uploads/" ++ id ++ ".mp3",
    mimeType := "audio/mpeg", size := 4, recordedAt := t, uploadedAt := 0,
    status := st }

def c3RecA : AudioFile := sampleAudioFile "a" "01_intro.m4a" 120000 .transcribed

def c3RecB : AudioFile := sampleAudioFile "b" "02_intro.m4a" 0 .transcribed

def c3RecC : AudioFile := sampleAudioFile "c" "01_x.m4a" 0 .transcribed

def c3RecD : AudioFile := sampleAudioFile "d" "02_y.m4a" 600000 .transcribed

def c4Store : Store :=
  { audioFiles := [("f1", sampleAudioFile "f1" "n.mp3" 0 .transcribed)],
    transcriptions := [], lectures := [], podcastScripts := [],
    status := { totalFiles := 1, transcribedFiles := 1,
                lecturesGenerated := 0, phase := .processing } }

def c4Res : String → Except String Transcription := fun _ => .error "service unavailable"

def c4WStore : Store :=
  { audioFiles := [("g1", sampleAudioFile "g1" "g.mp3" 0 .uploaded)],
    transcriptions := [], lectures := [], podcastScripts := [],
    status := { totalFiles := 1, transcribedFiles := 0,
                lecturesGenerated := 0, phase := .uploading } }

def c4WRes : String → Except String Transcription := fun id => .ok (sampleTranscription id)

def c5Lecture : Lecture :=
  { id := "L1", lectureNumber := 1, title := "T", summary := "S",
    keyTopics := ["k"], audioFileIds := ["f1"], fullTranscript := "x",
    createdAt := 0 }

def c5Store : Store :=
  { audioFiles := [("f1", sampleAudioFile "f1" "a.mp3" 0 .transcribed)],
    transcriptions := [("f1", sampleTranscription "f1")],
    lectures := [("L1", c5Lecture)], podcastScripts := [],
    status := { totalFiles := 1, transcribedFiles := 1,
                lecturesGenerated := 1, phase := .processing } }

def c5Group : LectureGroup :=
  { lectureNumber := 1, title := "Intro", summary := "Summary",
    keyTopics := ["topic"], audioFileIds := ["f1"] }

def c6Store : Store :=
  { audioFiles := [("h1", sampleAudioFile "h1" "h.mp3" 0 .uploaded),
      ("h2", sampleAudioFile "h2" "h2.mp3" 0 .error)],
    transcriptions := [], lectures := [], podcastScripts := [],
    status := { totalFiles := 2, transcribedFiles := 0,
                lecturesGenerated := 0, phase := .uploading } }

def c6Res : String → Except String Transcription := fun id => .ok (sampleTranscription id)

def c9File : AudioFile := sampleAudioFile "f1" "09.mp3" 5 .uploaded

def c9Store : Store :=
  { audioFiles := [("f1", c9File), ("f2", sampleAudioFile "f2" "other.mp3" 9 .uploaded)],
    transcriptions := [], lectures := [], podcastScripts := [],
    status := { totalFiles := 2, transcribedFiles := 0,
                lecturesGenerated := 0, phase := .idle } }


/-! ## Theory of the sort model -/

section JsSortTheory

variable {α : Type} (cmp : α → α → Int)

theorem ascRun_eq_of_chain {prev : α} {l : List α}
    (h : List.Chain' (fun u v => 0 ≤ cmp v u) (prev :: l)) :
    ascRun cmp prev l = (l, []) := by
  induction l generalizing prev with
  | nil => rfl
  | cons x xs ih =>
    rw [List.chain'_cons] at h
    rw [ascRun, if_pos h.1, ih h.2]

theorem jsSort_fixed {l : List α} (h : Asc cmp l) : jsSort cmp l = l := by
  match l with
  | [] => rfl
  | [a] => rfl
  | a :: b :: rest =>
    rw [Asc, List.chain'_cons] at h
    rw [jsSort, if_neg (by omega), ascRun_eq_of_chain cmp (by exact h.2)]
    rfl

theorem binPosF_spec (x : α) (l : List α) :
    ∀ (fuel left right : Nat), right - left ≤ fuel → left ≤ right →
    right ≤ l.length →
    (0 < left → 0 ≤ cmp x (l.getD (left - 1) x)) →
    (right < l.length → cmp x (l.getD right x) < 0) →
    binPosF cmp x l fuel left right ≤ right ∧
    (0 < binPosF cmp x l fuel left right →
      0 ≤ cmp x (l.getD (binPosF cmp x l fuel left right - 1) x)) ∧
    (binPosF cmp x l fuel left right < l.length →
      cmp x (l.getD (binPosF cmp x l fuel left right) x) < 0) := by
  intro fuel
  induction fuel with
  | zero =>
    intro left right hf hlr _ h1 h2
    have : left = right := by omega
    subst this
    exact ⟨le_refl _, h1, h2⟩
  | succ fuel ih =>
    intro left right hf hlr hr h1 h2
    rw [binPosF]
    by_cases hlt : left < right
    · rw [if_pos hlt]
      by_cases hc : cmp x (l.getD (left + (right - left) / 2) x) < 0
      · rw [if_pos hc]
        have := ih left (left + (right - left) / 2) (by omega) (by omega)
          (by omega) h1 (fun _ => hc)
        exact ⟨by omega, this.2.1, this.2.2⟩
      · rw [if_neg hc]
        have := ih (left + (right - left) / 2 + 1) right (by omega) (by omega)
          hr (fun _ => by simpa using not_lt.mp hc) h2
        exact this
    · rw [if_neg hlt]
      have : left = right := by omega
      subst this
      exact ⟨le_refl _, h1, h2⟩

theorem binPos_spec (x : α) (l : List α) :
    binPos cmp x l ≤ l.length ∧
    (0 < binPos cmp x l → 0 ≤ cmp x (l.getD (binPos cmp x l - 1) x)) ∧
    (binPos cmp x l < l.length → cmp x (l.getD (binPos cmp x l) x) < 0) :=
  binPosF_spec cmp x l l.length 0 l.length (by omega) (Nat.zero_le _)
    (le_refl _) (by omega) (by omega)

variable (hA : ∀ x y, cmp x y = -(cmp y x))

include hA in
theorem insertAt_chain (x : α) :
    ∀ (l : List α) (p : Nat), List.Chain' (fun u v => 0 ≤ cmp v u) l →
    p ≤ l.length →
    (0 < p → 0 ≤ cmp x (l.getD (p - 1) x)) →
    (p < l.length → cmp x (l.getD p x) < 0) →
    List.Chain' (fun u v => 0 ≤ cmp v u) (insertAt x p l) := by
  intro l
  induction l with
  | nil =>
    intro p _ hp _ _
    have hp0 : p = 0 := by simpa using hp
    subst hp0
    exact List.chain'_singleton x
  | cons y ys ih =>
    intro p hch hp h1 h2
    match p with
    | 0 =>
      rw [insertAt, List.chain'_cons]
      refine ⟨?_, hch⟩
      have := h2 (by simp)
      rw [List.getD_cons_zero] at this
      have := hA x y
      omega
    | q + 1 =>
      rw [insertAt]
      rw [List.chain'_cons'] --
      constructor
      · intro z hz
        match q, ys with
        | 0, _ =>
          rw [insertAt] at hz
          simp at hz
          subst hz
          have := h1 (by omega)
          rwa [List.getD_cons_zero] at this
        | r + 1, [] => simp at hp
        | r + 1, w :: ws =>
          rw [insertAt] at hz
          simp at hz
          subst hz
          exact (List.chain'_cons.mp hch).1
      · refine ih q (List.Chain'.tail hch) (by simpa using hp) ?_ ?_
        · intro hq
          have := h1 (by omega)
          rwa [show q + 1 - 1 = (q - 1) + 1 by omega, List.getD_cons_succ] at this
        · intro hq
          have := h2 (by simpa using hq)
          rwa [List.getD_cons_succ] at this

include hA in
theorem binIns_asc {l : List α} (h : Asc cmp l) (x : α) :
    Asc cmp (binIns cmp l x) := by
  obtain ⟨hle, h1, h2⟩ := binPos_spec cmp x l
  exact insertAt_chain cmp hA x l (binPos cmp x l) h hle h1 h2

include hA in
theorem foldl_binIns_asc :
    ∀ (rest : List α) (init : List α), Asc cmp init →
    Asc cmp (rest.foldl (binIns cmp) init) := by
  intro rest
  induction rest with
  | nil => intro init h; exact h
  | cons x xs ih =>
    intro init h
    exact ih (binIns cmp init x) (binIns_asc cmp hA h x)

theorem ascRun_chain :
    ∀ (prev : α) (l : List α),
    List.Chain' (fun u v => 0 ≤ cmp v u) (prev :: (ascRun cmp prev l).1) := by
  intro prev l
  induction l generalizing prev with
  | nil => exact List.chain'_singleton prev
  | cons x xs ih =>
    rw [ascRun]
    by_cases hc : 0 ≤ cmp x prev
    · rw [if_pos hc]
      simpa [List.chain'_cons] using ⟨hc, ih x⟩
    · rw [if_neg hc]
      exact List.chain'_singleton prev

theorem descRun_chain :
    ∀ (prev : α) (l : List α),
    List.Chain' (fun u v => cmp v u < 0) (prev :: (descRun cmp prev l).1) := by
  intro prev l
  induction l generalizing prev with
  | nil => exact List.chain'_singleton prev
  | cons x xs ih =>
    rw [descRun]
    by_cases hc : cmp x prev < 0
    · rw [if_pos hc]
      simpa [List.chain'_cons] using ⟨hc, ih x⟩
    · rw [if_neg hc]
      exact List.chain'_singleton prev

include hA in
theorem reverse_desc_asc {l : List α}
    (h : List.Chain' (fun u v => cmp v u < 0) l) : Asc cmp l.reverse := by
  rw [Asc, List.chain'_reverse]
  refine h.imp ?_
  intro a b hab
  simp only [flip]
  have := hA b a
  omega

include hA in
theorem jsSort_asc (l : List α) : Asc cmp (jsSort cmp l) := by
  match l with
  | [] => exact List.chain'_nil
  | [a] => exact List.chain'_singleton a
  | a :: b :: rest =>
    rw [jsSort]
    by_cases hc : cmp b a < 0
    · rw [if_pos hc]
      refine foldl_binIns_asc cmp hA _ _ ?_
      refine reverse_desc_asc cmp hA ?_
      simpa [List.chain'_cons] using ⟨hc, descRun_chain cmp b rest⟩
    · rw [if_neg hc]
      refine foldl_binIns_asc cmp hA _ _ ?_
      simpa [Asc, List.chain'_cons] using ⟨by omega, ascRun_chain cmp b rest⟩

include hA in
theorem jsSort_idem (l : List α) :
    jsSort cmp (jsSort cmp l) = jsSort cmp l :=
  jsSort_fixed cmp (jsSort_asc cmp hA l)

theorem ascRun_append :
    ∀ (prev : α) (l : List α), (ascRun cmp prev l).1 ++ (ascRun cmp prev l).2 = l := by
  intro prev l
  induction l generalizing prev with
  | nil => rfl
  | cons x xs ih =>
    rw [ascRun]
    by_cases hc : 0 ≤ cmp x prev
    · rw [if_pos hc]; simpa using ih x
    · rw [if_neg hc]; rfl

theorem descRun_append :
    ∀ (prev : α) (l : List α), (descRun cmp prev l).1 ++ (descRun cmp prev l).2 = l := by
  intro prev l
  induction l generalizing prev with
  | nil => rfl
  | cons x xs ih =>
    rw [descRun]
    by_cases hc : cmp x prev < 0
    · rw [if_pos hc]; simpa using ih x
    · rw [if_neg hc]; rfl

theorem insertAt_perm (x : α) :
    ∀ (p : Nat) (l : List α), List.Perm (insertAt x p l) (x :: l) := by
  intro p
  induction p with
  | zero => intro l; exact List.Perm.refl _
  | succ q ih =>
    intro l
    match l with
    | [] => exact List.Perm.refl _
    | y :: ys =>
      rw [insertAt]
      exact ((ih ys).cons y).trans (List.Perm.swap x y ys)

theorem binIns_perm (l : List α) (x : α) : List.Perm (binIns cmp l x) (x :: l) :=
  insertAt_perm x (binPos cmp x l) l

theorem foldl_binIns_perm :
    ∀ (rest init : List α), List.Perm (rest.foldl (binIns cmp) init) (init ++ rest) := by
  intro rest
  induction rest with
  | nil => intro init; simp
  | cons x xs ih =>
    intro init
    refine (ih (binIns cmp init x)).trans ?_
    refine (List.Perm.append_right xs (binIns_perm cmp init x)).trans ?_
    exact List.perm_middle.symm

theorem jsSort_perm (l : List α) : List.Perm (jsSort cmp l) l := by
  match l with
  | [] => exact List.Perm.refl _
  | [a] => exact List.Perm.refl _
  | a :: b :: rest =>
    rw [jsSort]
    by_cases hc : cmp b a < 0
    · rw [if_pos hc]
      refine (foldl_binIns_perm cmp _ _).trans ?_
      refine (List.Perm.append_right _ (List.reverse_perm _)).trans ?_
      have : (a :: b :: (descRun cmp b rest).1) ++ (descRun cmp b rest).2
          = a :: b :: rest := by
        simpa using descRun_append cmp b rest
      rw [this]
    · rw [if_neg hc]
      refine (foldl_binIns_perm cmp _ _).trans ?_
      have : (a :: b :: (ascRun cmp b rest).1) ++ (ascRun cmp b rest).2
          = a :: b :: rest := by
        simpa using ascRun_append cmp b rest
      rw [this]

end JsSortTheory

/-! ## Store lemmas -/

theorem lookup_mapReplace_self (m : List (String × β)) (k : String) (v : β)
    (h : m.any (fun p => p.1 == k) = true) :
    List.lookup k (m.map (fun p => if p.1 == k then (k, v) else p)) = some v := by
  induction m with
  | nil => simp at h
  | cons p t ih =>
    simp only [List.map_cons]
    by_cases hp : (p.1 == k) = true
    · rw [if_pos hp]
      simp [List.lookup]
    · rw [if_neg hp]
      have hkp : (k == p.1) = false := by
        have h2 : ¬p.1 = k := by simpa using hp
        simp only [beq_eq_false_iff_ne, ne_eq]
        exact fun he => h2 he.symm
      simp only [List.lookup, hkp]
      apply ih
      simpa [hp] using h

theorem lookup_append_self (m : List (String × β)) (k : String) (v : β)
    (h : m.any (fun p => p.1 == k) = false) :
    List.lookup k (m ++ [(k, v)]) = some v := by
  induction m with
  | nil => simp [List.lookup]
  | cons p t ih =>
    simp only [List.any_cons, Bool.or_eq_false_iff] at h
    have hkp : (k == p.1) = false := by
      have h2 : ¬p.1 = k := by simpa using h.1
      simp only [beq_eq_false_iff_ne, ne_eq]
      exact fun he => h2 he.symm
    simp only [List.cons_append, List.lookup, hkp]
    exact ih h.2

theorem lookup_mapSet_self (m : List (String × β)) (k : String) (v : β) :
    mapGet (mapSet m k v) k = some v := by
  simp only [mapGet, mapSet]
  by_cases h : (m.any fun p => p.1 == k) = true
  · rw [if_pos h]
    exact lookup_mapReplace_self m k v h
  · rw [if_neg h]
    exact lookup_append_self m k v (by simp only [Bool.not_eq_true] at h; exact h)

theorem lookup_mapReplace_ne (t : List (String × β)) (k : String) (v : β)
    (q : String) (hq : q ≠ k) :
    List.lookup q (t.map (fun p => if p.1 == k then (k, v) else p)) =
      List.lookup q t := by
  have hqk : (q == k) = false := by simp [hq]
  induction t with
  | nil => rfl
  | cons p t ih =>
    simp only [List.map_cons]
    by_cases hp : (p.1 == k) = true
    · rw [if_pos hp]
      have hqp : (q == p.1) = false := by
        rw [show p.1 = k by simpa using hp]
        exact hqk
      simp only [List.lookup, hqk, hqp]
      exact ih
    · rw [if_neg hp]
      simp only [List.lookup]
      cases q == p.1
      · exact ih
      · rfl

theorem lookup_append_ne (m : List (String × β)) (k : String) (v : β)
    (q : String) (hq : q ≠ k) :
    List.lookup q (m ++ [(k, v)]) = List.lookup q m := by
  have hqk : (q == k) = false := by simp [hq]
  induction m with
  | nil => simp [List.lookup, hqk]
  | cons p t ih =>
    simp only [List.cons_append, List.lookup]
    cases q == p.1
    · exact ih
    · rfl

theorem lookup_mapSet_ne (m : List (String × β)) (k : String) (v : β)
    (q : String) (hq : q ≠ k) : mapGet (mapSet m k v) q = mapGet m q := by
  simp only [mapGet, mapSet]
  by_cases h : (m.any fun p => p.1 == k) = true
  · rw [if_pos h]
    exact lookup_mapReplace_ne m k v q hq
  · rw [if_neg h]
    exact lookup_append_ne m k v q hq

theorem lookup_any (m : List (String × β)) (k : String) (f : β)
    (h : mapGet m k = some f) : m.any (fun p => p.1 == k) = true := by
  induction m with
  | nil => simp [mapGet, List.lookup] at h
  | cons p t ih =>
    by_cases hp : k = p.1
    · simp [hp]
    · have hkp : (k == p.1) = false := by simp [hp]
      rw [mapGet, List.lookup, hkp] at h
      simp [ih h]

theorem mem_of_lookup (m : List (String × β)) (k : String) (v : β)
    (h : List.lookup k m = some v) : (k, v) ∈ m := by
  induction m with
  | nil => simp [List.lookup] at h
  | cons p t ih =>
    obtain ⟨p1, p2⟩ := p
    by_cases hp : k = p1
    · have hb : (k == p1) = true := by simp [hp]
      simp only [List.lookup, hb] at h
      simp only [Option.some.injEq] at h
      subst hp
      subst h
      exact List.mem_cons_self _ _
    · have hb : (k == p1) = false := by simp [hp]
      simp only [List.lookup, hb] at h
      exact List.mem_cons_of_mem _ (ih h)

theorem lookup_of_mem (m : List (String × β))
    (hnd : (m.map Prod.fst).Nodup) (p : String × β) (hp : p ∈ m) :
    List.lookup p.1 m = some p.2 := by
  induction m with
  | nil => simp at hp
  | cons q t ih =>
    rcases List.mem_cons.mp hp with h | h
    · subst h
      simp [List.lookup]
    · have hne : p.1 ≠ q.1 := by
        intro he
        have : q.1 ∈ t.map Prod.fst := he ▸ List.mem_map_of_mem Prod.fst h
        exact (List.nodup_cons.mp (by simpa using hnd)).1 this
      have : (p.1 == q.1) = false := by simp [hne]
      rw [List.lookup, this]
      exact ih (List.Nodup.of_cons (by simpa using hnd)) h

theorem mapSet_keys (m : List (String × β)) (k : String) (v : β)
    (h : m.any (fun p => p.1 == k) = true) :
    (mapSet m k v).map Prod.fst = m.map Prod.fst := by
  rw [mapSet, if_pos h, List.map_map]
  refine List.map_congr_left ?_
  intro p _
  by_cases hp : p.1 = k <;> simp [hp]

theorem updateAudioFile_none (s : Store) (id : String) (u : AudioFileUpdates)
    (h : mapGet s.audioFiles id = none) : updateAudioFile s id u = s := by
  rw [updateAudioFile, h]

theorem updateAudioFile_some (s : Store) (id : String) (u : AudioFileUpdates)
    (f : AudioFile) (h : mapGet s.audioFiles id = some f) :
    updateAudioFile s id u =
      { s with audioFiles := mapSet s.audioFiles id (mergeAudioFile f u) } := by
  rw [updateAudioFile, h]

theorem audioStatus_updateStatus (s : Store) (u : StatusUpdates) (id : String) :
    audioStatus (updateStatus s u) id = audioStatus s id := rfl

theorem audioStatus_addTranscription (s : Store) (t : Transcription) (id : String) :
    audioStatus (addTranscription s t) id = audioStatus s id := rfl

theorem audioStatus_update_self (s : Store) (id : String) (u : AudioFileUpdates)
    (f : AudioFile) (h : mapGet s.audioFiles id = some f) :
    audioStatus (updateAudioFile s id u) id = some (mergeAudioFile f u).status := by
  rw [updateAudioFile_some s id u f h, audioStatus]
  rw [show ({ s with audioFiles := mapSet s.audioFiles id (mergeAudioFile f u) } : Store).audioFiles
    = mapSet s.audioFiles id (mergeAudioFile f u) from rfl]
  rw [lookup_mapSet_self]
  rfl

theorem audioStatus_update_ne (s : Store) (id : String) (u : AudioFileUpdates)
    (q : String) (h : q ≠ id) :
    audioStatus (updateAudioFile s id u) q = audioStatus s q := by
  cases hm : mapGet s.audioFiles id with
  | none => rw [updateAudioFile_none s id u hm]
  | some f =>
    rw [updateAudioFile_some s id u f hm, audioStatus, audioStatus]
    rw [show ({ s with audioFiles := mapSet s.audioFiles id (mergeAudioFile f u) } : Store).audioFiles
      = mapSet s.audioFiles id (mergeAudioFile f u) from rfl]
    rw [lookup_mapSet_ne s.audioFiles id (mergeAudioFile f u) q h]

theorem statusLe_refl (a : FileStatus) : statusLe a a = true := by cases a <;> rfl

theorem statusStepOk_refl (o : Option FileStatus) : statusStepOk o o := by
  cases o with
  | none => trivial
  | some a => exact statusLe_refl a

theorem statusMono_of_eq (s s2 : Store) (h : s2.audioFiles = s.audioFiles) :
    statusMono s s2 := by
  intro id
  have : audioStatus s2 id = audioStatus s id := by rw [audioStatus, audioStatus, h]
  rw [this]
  exact statusStepOk_refl _

theorem statusMono_of_update (s : Store) (id : String) (u : AudioFileUpdates)
    (f : AudioFile) (hf : mapGet s.audioFiles id = some f)
    (hle : statusLe f.status (mergeAudioFile f u).status = true) :
    statusMono s (updateAudioFile s id u) := by
  intro k
  by_cases hk : k = id
  · subst hk
    rw [audioStatus_update_self s k u f hf]
    have : audioStatus s k = some f.status := by rw [audioStatus, hf]; rfl
    rw [this]
    exact hle
  · rw [audioStatus_update_ne s id u k hk]
    exact statusStepOk_refl _

/-! ## Comparator lemmas -/

theorem compareAudioFiles_antisym (x y : AudioFile) :
    compareAudioFiles x y = -(compareAudioFiles y x) := by
  simp only [compareAudioFiles]
  rw [abs_sub_comm y.recordedAt x.recordedAt]
  by_cases h : |x.recordedAt - y.recordedAt| < CLOSE_THRESHOLD_MS
  · rw [if_pos h, if_pos h]
    cases parseSequenceFromFilename x.originalName <;>
      cases parseSequenceFromFilename y.originalName <;> simp [neg_sub]
  · rw [if_neg h, if_neg h]
    ring

theorem compareLectures_antisym (x y : Lecture) :
    compareLectures x y = -(compareLectures y x) := by
  simp only [compareLectures]
  ring

/-! ## Claims -/

/-- C2 counterexample: the claim asserts
parseSequence("lecture_part2.mp3") = 2, but the part pattern requires a word
boundary before the token and the preceding underscore is a word character,
so the source returns null. -/
theorem c2_counterexample :
    parseSequenceFromFilename "lecture_part2.mp3" = none ∧
    parseSequenceFromFilename "lecture_part2.mp3" ≠ some 2 := by decide

/-- C2 (amended): parseSequence tries, in order, a leading number with
separator, the part token behind a word boundary (an underscore is a word
character, so "lecture_part2" does not match while a space or hyphen before
"part" does), a trailing number with separator, and a purely-digit name;
parseSequence("01_lecture.m4a") = 1, parseSequence("lecture_part2.mp3") =
none, parseSequence("lecture part2.mp3") = parseSequence("lecture-part2.mp3")
= 2, parseSequence("session-02.wav") = 2, parseSequence("randomname.mp3") =
none. -/
theorem c2_amended :
    parseSequenceFromFilename "01_lecture.m4a" = some 1 ∧
    parseSequenceFromFilename "lecture_part2.mp3" = none ∧
    parseSequenceFromFilename "lecture part2.mp3" = some 2 ∧
    parseSequenceFromFilename "lecture-part2.mp3" = some 2 ∧
    parseSequenceFromFilename "session-02.wav" = some 2 ∧
    parseSequenceFromFilename "randomname.mp3" = none ∧
    parseSequenceFromFilename "007.mp3" = some 7 ∧
    parseSequenceFromFilename "part3 intro.wav" = some 3 := by decide

/-- C7 counterexample: getRecordedAt is not total: when the filename has no
date pattern and the path is absent from storage, fs.statSync throws, so
the function has an error path. -/
theorem c7_counterexample :
    getRecordedAt [] "/tmp/crammer-uploads/x.mp3" "randomname.mp3" =
      .error "ENOENT: no such file or directory, stat" := by rfl

/-- C7 (amended): getRecordedAt returns parseDate(originalName) when that
yields a date; otherwise it returns the file's mtime from storage when the
path exists; when additionally the path is missing, the statSync error
propagates (the function is total only on inputs whose name parses or whose
path exists). -/
theorem c7_amended (mtimes : List (String × Int)) (p n : String) :
    (∀ d, parseDateFromFilename n = some d →
      getRecordedAt mtimes p n = .ok (d * 86400000)) ∧
    (parseDateFromFilename n = none → ∀ m, List.lookup p mtimes = some m →
      getRecordedAt mtimes p n = .ok m) ∧
    (parseDateFromFilename n = none → List.lookup p mtimes = none →
      getRecordedAt mtimes p n = .error "ENOENT: no such file or directory, stat") := by
  refine ⟨?_, ?_, ?_⟩
  · intro d hd
    rw [getRecordedAt, hd]
  · intro hn m hm
    rw [getRecordedAt, hn, hm]
  · intro hn hm
    rw [getRecordedAt, hn, hm]

/-- C7 witness: a dated filename returns the parsed date; an undated one
with a stored mtime returns that mtime exactly. -/
theorem c7_witness :
    getRecordedAt [("/u/a.mp3", 123)] "/u/a.mp3" "2024-01-15_lecture.m4a" =
      .ok (19737 * 86400000) ∧
    getRecordedAt [("/u/a.mp3", 123)] "/u/a.mp3" "randomname.mp3" = .ok 123 := by
  constructor
  · exact (c7_amended [("/u/a.mp3", 123)] "/u/a.mp3" "2024-01-15_lecture.m4a").1
      19737 (by decide)
  · exact (c7_amended [("/u/a.mp3", 123)] "/u/a.mp3" "randomname.mp3").2.1
      (by decide) 123 (by decide)

/-- C1 counterexample: the claim says a separated-numeric match with an
invalid calendar date (month 13) is skipped, falling through, and that with
no other pattern present the result is none; the source instead accepts the
match (only isNaN and year > 2000 are checked) and new Date(2024, 12, 1)
rolls over to 2025-01-01. -/
theorem c1_counterexample :
    parseDateFromFilename "2024-13-01_rec.mp3" = some (jsMakeDay 2024 12 1) ∧
    jsMakeDay 2024 12 1 = daysFromCivil 2025 1 1 ∧
    parseDateFromFilename "2024-13-01_rec.mp3" ≠ none := by decide

/-- C1 (amended): the three patterns are tried in order and the first
accepted match wins; a separated-numeric structural match is accepted
whenever its year exceeds 2000, out-of-range month or day rolling over via
new Date rather than falling through; an invalid compact match (month or day
out of range) does fall through to the month-name patterns; if no pattern
yields a date the result is none. -/
theorem c1_amended (f : String) :
    (∀ y m d, sepSearch (basenameNoExt f) = some (y, m, d) → 2000 < y →
      parseDateFromFilename f = some (jsMakeDay (y : Int) ((m : Int) - 1) (d : Int))) ∧
    (∀ y m d, sepSearch (basenameNoExt f) = none →
      compactSearch false (basenameNoExt f) = some (y, m, d) →
      ¬(2000 < y ∧ 1 ≤ m ∧ m ≤ 12 ∧ 1 ≤ d ∧ d ≤ 31) →
      parseDateFromFilename f = monthSearch ((basenameNoExt f).map toLowerAscii)) ∧
    (sepSearch (basenameNoExt f) = none →
      compactSearch false (basenameNoExt f) = none →
      monthSearch ((basenameNoExt f).map toLowerAscii) = none →
      parseDateFromFilename f = none) := by
  refine ⟨?_, ?_, ?_⟩
  · intro y m d hsep hy
    simp only [parseDateFromFilename, hsep]
    rw [if_pos hy]
  · intro y m d hsep hcomp hbad
    simp only [parseDateFromFilename, hsep, hcomp]
    rw [if_neg]
    simp only [Bool.and_eq_true, decide_eq_true_eq]
    intro hc
    exact hbad ⟨hc.1.1.1.1, hc.1.1.1.2, hc.1.1.2, hc.1.2, hc.2⟩
  · intro h1 h2 h3
    simp only [parseDateFromFilename, h1, h2, h3]

/-- C1 witness: a valid separated date is returned as that date; a compact
match with month 13 falls through to the (absent) month patterns; a name
with no pattern yields none. -/
theorem c1_witness :
    parseDateFromFilename "2024-01-15_lecture.m4a" = some (jsMakeDay 2024 0 15) ∧
    parseDateFromFilename "20241301 notes.mp3" =
      monthSearch ((basenameNoExt "20241301 notes.mp3").map toLowerAscii) ∧
    parseDateFromFilename "randomname.mp3" = none := by
  refine ⟨?_, ?_, ?_⟩
  · exact (c1_amended "2024-01-15_lecture.m4a").1 2024 1 15 (by decide) (by decide)
  · exact (c1_amended "20241301 notes.mp3").2.1 2024 13 1 (by decide) (by decide)
      (by decide)
  · exact (c1_amended "randomname.mp3").2.2 (by decide) (by decide) (by decide)

/-- C3: within the five-minute closeness window and with both sequence
numbers present, the comparator is the sequence difference, so the smaller
sequence number sorts first regardless of the timestamps; at or beyond the
window, or with a missing sequence number, the comparator is the timestamp
difference. -/
theorem c3_sequencer (a b : AudioFile) (m n : Nat) :
    (|a.recordedAt - b.recordedAt| < CLOSE_THRESHOLD_MS →
      parseSequenceFromFilename a.originalName = some m →
      parseSequenceFromFilename b.originalName = some n →
      compareAudioFiles a b = (m : Int) - (n : Int) ∧
      (m < n → jsSort compareAudioFiles [b, a] = [a, b] ∧
        jsSort compareAudioFiles [a, b] = [a, b])) ∧
    (CLOSE_THRESHOLD_MS ≤ |a.recordedAt - b.recordedAt| →
      compareAudioFiles a b = a.recordedAt - b.recordedAt) ∧
    ((parseSequenceFromFilename a.originalName = none ∨
        parseSequenceFromFilename b.originalName = none) →
      compareAudioFiles a b = a.recordedAt - b.recordedAt) := by
  refine ⟨?_, ?_, ?_⟩
  · intro h ha hb
    have hab : compareAudioFiles a b = (m : Int) - (n : Int) := by
      simp only [compareAudioFiles]
      rw [if_pos h, ha, hb]
    refine ⟨hab, ?_⟩
    intro hmn
    have hba : compareAudioFiles b a = (n : Int) - (m : Int) := by
      rw [compareAudioFiles_antisym b a, hab]
      ring
    constructor
    · rw [jsSort, if_pos (by rw [hab]; omega)]
      rfl
    · rw [jsSort, if_neg (by rw [hba]; omega)]
      rfl
  · intro h
    simp only [compareAudioFiles]
    rw [if_neg (not_lt.mpr h)]
  · intro h
    simp only [compareAudioFiles]
    by_cases hw : |a.recordedAt - b.recordedAt| < CLOSE_THRESHOLD_MS
    · rw [if_pos hw]
      rcases h with ha | hb
      · rw [ha]
      · rw [hb]
        cases parseSequenceFromFilename a.originalName <;> rfl
    · rw [if_neg hw]

/-- C3 witness: two recordings two minutes apart carrying sequence numbers
1 and 2 compare by sequence (the later-stamped sequence-1 recording sorts
first); ten minutes apart they compare by timestamp. -/
theorem c3_witness :
    compareAudioFiles c3RecA c3RecB = (1 : Int) - (2 : Int) ∧
    jsSort compareAudioFiles [c3RecB, c3RecA] = [c3RecA, c3RecB] ∧
    compareAudioFiles c3RecC c3RecD = c3RecC.recordedAt - c3RecD.recordedAt := by
  have h1 := (c3_sequencer c3RecA c3RecB 1 2).1 (by decide) (by decide) (by decide)
  exact ⟨h1.1, (h1.2 (by decide)).1,
    (c3_sequencer c3RecC c3RecD 0 0).2.1 (by decide)⟩

/-- C10: getAllLectures returns exactly the stored lectures (a permutation
of the map's values) in ascending order of lectureNumber, for every store
contents. -/
theorem c10_getAllLectures_sorted (s : Store) :
    List.Perm (getAllLectures s) (s.lectures.map Prod.snd) ∧
    List.Pairwise (fun a b => a.lectureNumber ≤ b.lectureNumber)
      (getAllLectures s) := by
  constructor
  · exact jsSort_perm compareLectures _
  · have h := jsSort_asc compareLectures compareLectures_antisym
      (s.lectures.map Prod.snd)
    rw [Asc] at h
    have h2 : List.Chain' (fun a b : Lecture => a.lectureNumber ≤ b.lectureNumber)
        (getAllLectures s) := by
      refine h.imp ?_
      intro a b hab
      simp only [compareLectures] at hab
      omega
    haveI : IsTrans Lecture (fun a b => a.lectureNumber ≤ b.lectureNumber) :=
      ⟨fun _ _ _ hab hbc => le_trans hab hbc⟩
    exact List.chain'_iff_pairwise.mp h2

/-- C9: updateAudioFile with an existing id performs a shallow merge (each
field named in the updates takes the supplied value, the rest keep the
existing record's values), leaves every other entry and every other store
component unchanged, and with a missing id leaves the store entirely
unchanged. -/
theorem c9_updateAudioFile (s : Store) (id : String) (u : AudioFileUpdates) :
    (mapGet s.audioFiles id = none → updateAudioFile s id u = s) ∧
    (∀ f, mapGet s.audioFiles id = some f →
      mapGet (updateAudioFile s id u).audioFiles id = some (mergeAudioFile f u) ∧
      (∀ k, k ≠ id →
        mapGet (updateAudioFile s id u).audioFiles k = mapGet s.audioFiles k) ∧
      (updateAudioFile s id u).transcriptions = s.transcriptions ∧
      (updateAudioFile s id u).lectures = s.lectures ∧
      (updateAudioFile s id u).podcastScripts = s.podcastScripts ∧
      (updateAudioFile s id u).status = s.status ∧
      mergeAudioFile f u =
        { id := u.id.getD f.id, originalName := u.originalName.getD f.originalName,
          savedPath := u.savedPath.getD f.savedPath,
          mimeType := u.mimeType.getD f.mimeType, size := u.size.getD f.size,
          recordedAt := u.recordedAt.getD f.recordedAt,
          uploadedAt := u.uploadedAt.getD f.uploadedAt,
          status := u.status.getD f.status,
          errorMessage := u.errorMessage.getD f.errorMessage }) := by
  constructor
  · exact updateAudioFile_none s id u
  · intro f hf
    rw [updateAudioFile_some s id u f hf]
    exact ⟨lookup_mapSet_self s.audioFiles id (mergeAudioFile f u),
      fun k hk => lookup_mapSet_ne s.audioFiles id (mergeAudioFile f u) k hk,
      rfl, rfl, rfl, rfl, rfl⟩

/-- C9 witness: updating the status of the stored recording f1 merges the
status and keeps f2 untouched; updating a missing id is a no-op. -/
theorem c9_witness :
    mapGet (updateAudioFile c9Store "f1" { status := some .transcribing }).audioFiles "f1" =
      some (mergeAudioFile c9File { status := some .transcribing }) ∧
    mapGet (updateAudioFile c9Store "f1" { status := some .transcribing }).audioFiles "f2" =
      mapGet c9Store.audioFiles "f2" ∧
    updateAudioFile c9Store "missing" { status := some .transcribing } = c9Store := by
  refine ⟨?_, ?_, ?_⟩
  · exact ((c9_updateAudioFile c9Store "f1" _).2 c9File (by decide)).1
  · exact ((c9_updateAudioFile c9Store "f1" _).2 c9File (by decide)).2.1 "f2" (by decide)
  · exact (c9_updateAudioFile c9Store "missing" _).1 (by decide)

/-- C5 counterexample: the claim says any external response that makes the
grouping operation throw leaves the prior lecture set unchanged with no
partial set persisted; but inferLectures returns parsed.lectures with no
structural validation, so a JSON-parseable response holding one well-formed
group followed by a malformed one (say, without audioFileIds) throws inside
the rebuild loop after clearLectures and one addLecture: the stored lecture
from before the call is gone, a one-element partial lecture set is
persisted, and the phase reads error. -/
theorem c5_counterexample :
    c5Store.lectures = [("L1", c5Lecture)] ∧
    (processPOST c5Store (fun _ => "uuid-1") 0 (fun _ => "1/1/2024")
        (.groups [.good c5Group,
          .bad "Cannot read properties of undefined (reading 'map')"])).1.lectures ≠
      c5Store.lectures ∧
    (processPOST c5Store (fun _ => "uuid-1") 0 (fun _ => "1/1/2024")
        (.groups [.good c5Group,
          .bad "Cannot read properties of undefined (reading 'map')"])).1.lectures.length
      = 1 ∧
    (processPOST c5Store (fun _ => "uuid-1") 0 (fun _ => "1/1/2024")
        (.groups [.good c5Group,
          .bad "Cannot read properties of undefined (reading 'map')"])).1.status.phase
      = Phase.error := by decide

/-- C5 (amended): only when the inferLectures call itself throws (API
error, non-text content, a response that is not valid JSON) is the store
left unchanged except for status.phase := error with the message; a
response that parses as JSON but lacks the expected structure throws after
clearLectures — with a non-iterable lectures field, or a malformed leading
group, the prior lecture set is wiped (and with a malformed group after
well-formed ones, a partial set is persisted) before the phase is set to
error. -/
theorem c5_amended (s0 : Store) (uuidAt : Nat → String) (nowMs : Int)
    (fmtDate : Int → String) (msg : String)
    (h : (getAllAudioFiles s0).filter
      (fun f => decide (f.status = FileStatus.transcribed)) ≠ []) :
    (processPOST s0 uuidAt nowMs fmtDate (.thrown msg) =
      ({ s0 with status :=
          { s0.status with phase := .error, errorMessage := some msg } },
        .serverError msg)) ∧
    (processPOST s0 uuidAt nowMs fmtDate (.notIterable msg) =
      ({ s0 with
          lectures := [],
          status := { s0.status with phase := .error, errorMessage := some msg } },
        .serverError msg)) ∧
    (∀ gs, processPOST s0 uuidAt nowMs fmtDate (.groups (.bad msg :: gs)) =
      ({ s0 with
          lectures := [],
          status := { s0.status with phase := .error, errorMessage := some msg } },
        .serverError msg)) := by
  refine ⟨?_, ?_, ?_⟩
  · simp only [processPOST]
    rw [if_neg (by simpa [List.isEmpty_iff] using h)]
    simp [updateStatus, mergeStatus]
  · simp only [processPOST]
    rw [if_neg (by simpa [List.isEmpty_iff] using h)]
    simp [updateStatus, mergeStatus, clearLectures]
  · intro gs
    simp only [processPOST]
    rw [if_neg (by simpa [List.isEmpty_iff] using h)]
    simp [updateStatus, mergeStatus, clearLectures, addLectures]

/-- C5 witness: on a store holding one transcribed recording and one saved
lecture, a throwing grouping call leaves exactly the same store with the
phase set to error, while a parsed-but-non-iterable response leaves the
same store with the lecture set cleared. -/
theorem c5_witness :
    processPOST c5Store (fun _ => "uuid-1") 0 (fun _ => "1/1/2024") (.thrown "boom") =
      ({ c5Store with status :=
          { c5Store.status with phase := .error, errorMessage := some "boom" } },
        .serverError "boom") ∧
    processPOST c5Store (fun _ => "uuid-1") 0 (fun _ => "1/1/2024")
        (.notIterable "lectureGroups is not iterable") =
      ({ c5Store with
          lectures := [],
          status := { c5Store.status with
                        phase := .error,
                        errorMessage := some "lectureGroups is not iterable" } },
        .serverError "lectureGroups is not iterable") := by
  constructor
  · exact (c5_amended c5Store (fun _ => "uuid-1") 0 (fun _ => "1/1/2024") "boom"
      (by decide)).1
  · exact (c5_amended c5Store (fun _ => "uuid-1") 0 (fun _ => "1/1/2024")
      "lectureGroups is not iterable" (by decide)).2.1

/-! ## Trace lemmas for the transcription handler -/

theorem getLastD_append (l1 l2 : List Store) (d : Store) :
    (l1 ++ l2).getLastD d = l2.getLastD (l1.getLastD d) := by
  induction l1 generalizing d with
  | nil => rfl
  | cons x t ih =>
    rw [List.cons_append, List.getLastD_cons, ih, List.getLastD_cons]

theorem traceOk_append (R : Store → Store → Prop) :
    ∀ (t1 : List Store) (s : Store) (t2 : List Store),
    traceOk R s t1 → traceOk R (t1.getLastD s) t2 → traceOk R s (t1 ++ t2) := by
  intro t1
  induction t1 with
  | nil => intro s t2 _ h2; exact h2
  | cons x t ih =>
    intro s t2 h1 h2
    rw [List.getLastD_cons] at h2
    exact ⟨h1.1, ih x t2 h1.2 h2⟩

theorem transcribeStep_last (res : String → Except String Transcription)
    (s : Store) (f : AudioFile) :
    (transcribeStep res s f).2.getLastD s = (transcribeStep res s f).1 := by
  simp only [transcribeStep]
  cases res f.id <;> rfl

theorem runBatch_last (res : String → Except String Transcription) :
    ∀ (files : List AudioFile) (s : Store),
    (runBatch res s files).2.getLastD s = (runBatch res s files).1 := by
  intro files
  induction files with
  | nil => intro s; rfl
  | cons f rest ih =>
    intro s
    simp only [runBatch]
    rw [getLastD_append, transcribeStep_last]
    exact ih _

theorem transcribeStep_chain (res : String → Except String Transcription)
    (s : Store) (f g : AudioFile)
    (hg : mapGet s.audioFiles f.id = some g)
    (hgs : g.status = FileStatus.uploaded) :
    traceOk statusMono s (transcribeStep res s f).2 := by
  have h1 : statusMono s (updateAudioFile s f.id { status := some .transcribing }) := by
    refine statusMono_of_update s f.id _ g hg ?_
    rw [hgs]
    rfl
  have hfa : mapGet (updateAudioFile s f.id
        { status := some FileStatus.transcribing }).audioFiles f.id
      = some (mergeAudioFile g { status := some FileStatus.transcribing }) := by
    rw [updateAudioFile_some s f.id _ g hg]
    exact lookup_mapSet_self _ _ _
  simp only [transcribeStep]
  cases res f.id with
  | ok t =>
    refine ⟨h1, ?_, ?_, ?_, trivial⟩
    · exact statusMono_of_eq _ _ rfl
    · exact statusMono_of_update _ f.id _
        (mergeAudioFile g { status := some .transcribing }) hfa rfl
    · exact statusMono_of_eq _ _ rfl
  | error msg =>
    refine ⟨h1, ?_, ?_, trivial⟩
    · exact statusMono_of_update _ f.id _
        (mergeAudioFile g { status := some .transcribing }) hfa rfl
    · exact statusMono_of_eq _ _ rfl

theorem transcribeStep_frame (res : String → Except String Transcription)
    (s : Store) (f : AudioFile) (q : String) (hq : q ≠ f.id) :
    audioStatus (transcribeStep res s f).1 q = audioStatus s q := by
  simp only [transcribeStep]
  cases res f.id with
  | ok t =>
    rw [audioStatus_updateStatus, audioStatus_update_ne _ _ _ _ hq,
      audioStatus_addTranscription, audioStatus_update_ne _ _ _ _ hq]
  | error msg =>
    rw [audioStatus_updateStatus, audioStatus_update_ne _ _ _ _ hq,
      audioStatus_update_ne _ _ _ _ hq]

theorem runBatch_chain (res : String → Except String Transcription) :
    ∀ (files : List AudioFile) (s : Store),
    (files.map (fun f => f.id)).Nodup →
    (∀ f ∈ files, audioStatus s f.id = some FileStatus.uploaded) →
    traceOk statusMono s (runBatch res s files).2 := by
  intro files
  induction files with
  | nil => intro s _ _; exact trivial
  | cons f rest ih =>
    intro s hnd hall
    have hf := hall f (List.mem_cons_self f rest)
    obtain ⟨g, hg, hgs⟩ : ∃ g, mapGet s.audioFiles f.id = some g ∧
        g.status = FileStatus.uploaded := by
      rw [audioStatus] at hf
      cases hm : mapGet s.audioFiles f.id with
      | none => rw [hm] at hf; simp at hf
      | some g =>
        rw [hm] at hf
        simp only [Option.map_some', Option.some.injEq] at hf
        exact ⟨g, rfl, hf⟩
    simp only [runBatch]
    refine traceOk_append statusMono _ s _ (transcribeStep_chain res s f g hg hgs) ?_
    rw [transcribeStep_last]
    refine ih (transcribeStep res s f).1 ?_ ?_
    · exact (List.nodup_cons.mp (by simpa using hnd)).2
    · intro r hr
      have hne : r.id ≠ f.id := by
        intro he
        have : f.id ∈ rest.map (fun f => f.id) := he ▸ List.mem_map_of_mem _ hr
        exact (List.nodup_cons.mp (by simpa using hnd)).1 this
      rw [transcribeStep_frame res s f r.id hne]
      exact hall r (List.mem_cons_of_mem f hr)

theorem mem_toTranscribe_uploaded (s : Store) (h : WFStore s) (f : AudioFile)
    (hf : f ∈ toTranscribeOf s none) :
    audioStatus s f.id = some FileStatus.uploaded := by
  simp only [toTranscribeOf] at hf
  obtain ⟨hmem, hst⟩ := List.mem_filter.mp hf
  have hstatus : f.status = FileStatus.uploaded := of_decide_eq_true hst
  simp only [getAllAudioFiles] at hmem
  obtain ⟨p, hp, hpf⟩ := List.mem_map.mp hmem
  have hkey : p.2.id = p.1 := h.2 p hp
  subst hpf
  rw [audioStatus, hkey, mapGet, lookup_of_mem s.audioFiles h.1 p hp]
  simp [hstatus]

theorem toTranscribe_ids_nodup (s : Store) (h : WFStore s)
    (fileIds : Option (List String)) :
    ((toTranscribeOf s fileIds).map (fun f => f.id)).Nodup := by
  have hsub : List.Sublist (toTranscribeOf s fileIds) (getAllAudioFiles s) := by
    simp only [toTranscribeOf]
    cases fileIds <;> exact List.filter_sublist _
  have h2 : ((getAllAudioFiles s).map (fun f => f.id)).Nodup := by
    simp only [getAllAudioFiles, List.map_map]
    have he : s.audioFiles.map ((fun f => f.id) ∘ Prod.snd) =
        s.audioFiles.map Prod.fst :=
      List.map_congr_left (fun p hp => h.2 p hp)
    rw [he]
    exact h.1
  exact List.Nodup.sublist (hsub.map _) h2

/-- C4 counterexample: the claim says the lifecycle never moves backward
under any sequence of pipeline operations, but a transcribe call with
explicit fileIds naming an already-transcribed recording puts it back into
transcribing (the selection does not filter by status), a backward step
visible in the handler's state trace. -/
theorem c4_counterexample :
    audioStatus c4Store "f1" = some FileStatus.transcribed ∧
    ((transcribePOST c4Store (some ["f1"]) c4Res).2.map
        (fun s => audioStatus s "f1")) =
      [some .transcribed, some .transcribing, some .error, some .error,
        some .error] ∧
    statusLe FileStatus.transcribed FileStatus.transcribing = false := by decide

/-- C4 (amended): when the transcribe handler is invoked without explicit
fileIds (so only uploaded recordings are selected), every recording's status
moves only forward along uploaded -> transcribing -> (transcribed | error)
at every step of the handler's trace; with explicit fileIds an
already-finished recording is re-entered into transcribing (backward), which
is how re-transcription works. -/
theorem c4_amended (s0 : Store) (res : String → Except String Transcription)
    (h : WFStore s0) :
    traceOk statusMono s0 (transcribePOST s0 none res).2 := by
  simp only [transcribePOST]
  by_cases he : (toTranscribeOf s0 none).isEmpty = true
  · rw [if_pos he]
    exact trivial
  · rw [if_neg he]
    refine ⟨statusMono_of_eq _ _ rfl, ?_⟩
    refine traceOk_append statusMono _ _ _ ?_ ?_
    · refine runBatch_chain res (toTranscribeOf s0 none) _
        (toTranscribe_ids_nodup s0 h none) ?_
      intro f hf
      rw [audioStatus_updateStatus]
      exact mem_toTranscribe_uploaded s0 h f hf
    · rw [runBatch_last]
      refine ⟨?_, trivial⟩
      by_cases hd : allFilesDone (runBatch res
          (updateStatus s0 { phase := some Phase.transcribing })
          (toTranscribeOf s0 none)).1 = true
      · rw [if_pos hd]
        exact statusMono_of_eq _ _ rfl
      · rw [if_neg hd]
        exact statusMono_of_eq _ _ rfl

/-- C4 witness: on a well-formed store holding one uploaded recording, the
no-fileIds transcribe run's trace is forward-monotone throughout. -/
theorem c4_witness :
    traceOk statusMono c4WStore (transcribePOST c4WStore none c4WRes).2 :=
  c4_amended c4WStore c4WRes ⟨by decide, by decide⟩

/-- C6: if a transcription batch ran (the selection was nonempty) and in the
resulting store every recording is transcribed or error, then the pipeline
phase reads processing. -/
theorem c6_phase_processing (s0 : Store) (fileIds : Option (List String))
    (res : String → Except String Transcription)
    (hne : toTranscribeOf s0 fileIds ≠ [])
    (hall : ∀ f ∈ getAllAudioFiles (transcribePOST s0 fileIds res).1,
      f.status = FileStatus.transcribed ∨ f.status = FileStatus.error) :
    (transcribePOST s0 fileIds res).1.status.phase = Phase.processing := by
  have he : ¬((toTranscribeOf s0 fileIds).isEmpty = true) := by
    simpa [List.isEmpty_iff] using hne
  simp only [transcribePOST] at hall ⊢
  rw [if_neg he] at hall ⊢
  by_cases hd : allFilesDone (runBatch res
      (updateStatus s0 { phase := some Phase.transcribing })
      (toTranscribeOf s0 fileIds)).1 = true
  · rw [if_pos hd]
    rfl
  · exfalso
    rw [if_neg hd] at hall
    refine hd ?_
    simp only [allFilesDone, List.all_eq_true]
    intro f hf
    rcases hall f hf with h1 | h1 <;> simp [h1]

/-- C6 witness: a store with one uploaded and one failed recording, batch
run without fileIds and a succeeding service: afterwards every recording is
transcribed or error and the phase reads processing. -/
theorem c6_witness :
    (transcribePOST c6Store none c6Res).1.status.phase = Phase.processing :=
  c6_phase_processing c6Store none c6Res (by decide) (by decide)

end Crammer
